import Mathlib

/-!
# go-of-life: the sparse Life grid of `main.go`

A shallow embedding of the grid code of `main.go` (`checkNeighbor`, `tickStep`, the
two mouse blocks of `inputCells`) and proofs about it.

* Go's `int32` is an integer in `[-2^31, 2^31)`; `+=` wraps modulo `2^32`.
* Go's `map[Point]Cell` is a finite association list with unique keys
  (`AList`); `grid[p]` is `lookup`, `grid[p] = c` is `insert`, `delete` is `erase`.
* A `for k, v := range grid` loop visits the keys in an order the language leaves
  open. The order is an explicit argument: a list of keys. A key of the order that is
  not in the map when its turn comes is not produced. `rangeOrder` states what Go
  guarantees: no key is produced twice, every key present at the start is in the
  order (keys inserted while the loop runs may or may not be).
-/

namespace GoOfLife

/-! ## Machine integers -/

/-- Two's-complement wrap of an integer into the range of `int32`. -/
def wrap32 (z : Int) : Int := (z + 2147483648) % 4294967296 - 2147483648

/-- Go's `int32`. -/
structure int32 where
  val : Int
  lo : -2147483648 ≤ val
  hi : val < 2147483648
deriving DecidableEq

/-- Conversion to `int32`, wrapping. -/
def int32.ofInt (z : Int) : int32 :=
  ⟨wrap32 z, by unfold wrap32; omega, by unfold wrap32; omega⟩

/-- Wrapping addition of `int32` (`+=`). -/
def int32.add (a b : int32) : int32 := int32.ofInt (a.val + b.val)

instance (n : Nat) : OfNat int32 n := ⟨int32.ofInt n⟩

instance : Neg int32 := ⟨fun a => int32.ofInt (-a.val)⟩

/-! ## Data model (`main.go` lines 9-18, 36-47) -/

/-- `type Point struct { x int32; y int32 }` -/
structure Point where
  x : int32
  y : int32
deriving DecidableEq

/-- `type Cell struct { alive bool; neighbors int32; nextState bool }` -/
structure Cell where
  alive : Bool
  neighbors : int32
  nextState : Bool
deriving DecidableEq

/-- `var grid map[Point]Cell` -/
abbrev Grid : Type := AList (fun _ : Point => Cell)

/-- The point with the given coordinates. -/
def pt (x y : Int) : Point := ⟨int32.ofInt x, int32.ofInt y⟩

/-- `pos = point; pos.x += dir.x; pos.y += dir.y` (lines 114-116). -/
def Point.add (point dir : Point) : Point :=
  ⟨point.x.add dir.x, point.y.add dir.y⟩

/-- The slice `direction` set up by `init` (lines 36-47), in source order. -/
def direction : List Point :=
  [pt 1 1, pt 1 0, pt 1 (-1), pt 0 1, pt 0 (-1), pt (-1) 1, pt (-1) 0, pt (-1) (-1)]

/-! ## `checkNeighbor` (lines 106-126) -/

/-- The body of the loop of `checkNeighbor` at one neighbour position (lines 118-124). -/
def bump (change : int32) (g : Grid) (pos : Point) : Grid :=
  match g.lookup pos with
  | some cell => g.insert pos { cell with neighbors := cell.neighbors.add change }
  | none => g.insert pos ⟨false, 1, false⟩

/-- `change := int32(1); if !state { change = -1 }` (lines 107-110). -/
def changeOf (state : Bool) : int32 := if !state then -1 else 1

/-- `func checkNeighbor(point Point, state bool)`. -/
def checkNeighbor (point : Point) (state : Bool) (g : Grid) : Grid :=
  direction.foldl (fun g dir => bump (changeOf state) g (point.add dir)) g

/-! ## `range` loops -/

/-- A `for point, cell := range grid` loop whose keys come up in the given order. A key
absent from the map at its turn is not produced; a produced key comes with the value the
map holds at that moment. -/
def rangeLoop (body : Point → Cell → Grid → Grid) : List Point → Grid → Grid
  | [], g => g
  | p :: ps, g =>
    match g.lookup p with
    | some cell => rangeLoop body ps (body p cell g)
    | none => rangeLoop body ps g

/-- What Go guarantees of the order of a `range` loop started on `g`: no key twice, and
every key of `g` in it. -/
def rangeOrder (order : List Point) (g : Grid) : Prop :=
  order.Nodup ∧ ∀ p ∈ g.keys, p ∈ order

instance (order : List Point) (g : Grid) : Decidable (rangeOrder order g) := by
  unfold rangeOrder; infer_instance

/-! ## `tickStep` (lines 128-155) -/

/-- Body of the first loop (lines 131-137). -/
def computeBody (point : Point) (cell : Cell) (g : Grid) : Grid :=
  if cell.alive then
    g.insert point { cell with nextState := decide (cell.neighbors.val ≥ 2) && decide (cell.neighbors.val ≤ 3) }
  else if !cell.alive then
    g.insert point { cell with nextState := decide (cell.neighbors.val = 3) }
  else g

/-- Body of the second loop (lines 142-146). -/
def commitBody (point : Point) (cell : Cell) (g : Grid) : Grid :=
  if cell.nextState != cell.alive then
    checkNeighbor point cell.nextState (g.insert point { cell with alive := cell.nextState })
  else g

/-- Body of the third loop (lines 151-153), also the loop of lines 87-91. -/
def pruneBody (point : Point) (cell : Cell) (g : Grid) : Grid :=
  if !cell.alive && decide (cell.neighbors.val = 0) then g.erase point else g

/-- The visiting orders of the three loops of one `tickStep`. -/
structure TickOrders where
  compute : List Point
  commit : List Point
  prune : List Point

/-- `func tickStep()`. -/
def tickStep (o : TickOrders) (g : Grid) : Grid :=
  rangeLoop pruneBody o.prune (rangeLoop commitBody o.commit (rangeLoop computeBody o.compute g))

/-- Each of the three orders is one Go allows for the map its loop starts on. -/
def TickOrders.valid (o : TickOrders) (g : Grid) : Prop :=
  rangeOrder o.compute g ∧
  rangeOrder o.commit (rangeLoop computeBody o.compute g) ∧
  rangeOrder o.prune (rangeLoop commitBody o.commit (rangeLoop computeBody o.compute g))

instance (o : TickOrders) (g : Grid) : Decidable (o.valid g) := by
  unfold TickOrders.valid; infer_instance

/-- The orders that follow the key list of the map at the start of each loop. -/
def keyOrders (g : Grid) : TickOrders :=
  let g1 := rangeLoop computeBody g.keys g
  ⟨g.keys, g1.keys, (rangeLoop commitBody g1.keys g1).keys⟩

/-! ## `inputCells` (lines 51-94) -/

/-- What `inputCells` reads from the mouse in one frame: the three button queries and the
cell under the cursor (`pos`, the same expression in both blocks). -/
structure Mouse where
  leftDown : Bool
  leftPressed : Bool
  rightDown : Bool
  pos : Point

/-- The globals `inputCells` reads and writes. -/
structure World where
  grid : Grid
  lastPos : Point

/-- The paint action (lines 62-70). -/
def paintCell (pos : Point) (g : Grid) : Grid :=
  match g.lookup pos with
  | some cell => checkNeighbor pos true (g.insert pos { cell with alive := true })
  | none => checkNeighbor pos true (g.insert pos ⟨true, 0, false⟩)

/-- The map on which the loop of lines 87-91 starts when the guard of line 82 passes
(lines 83-86); the map itself when it does not. -/
def unsetCell (pos : Point) (g : Grid) : Grid :=
  match g.lookup pos with
  | some cell =>
    if cell.alive then checkNeighbor pos false (g.insert pos { cell with alive := false }) else g
  | none => g

/-- The erase action (lines 82-92). -/
def eraseCell (order : List Point) (pos : Point) (g : Grid) : Grid :=
  match g.lookup pos with
  | some cell =>
    if cell.alive then
      rangeLoop pruneBody order (checkNeighbor pos false (g.insert pos { cell with alive := false }))
    else g
  | none => g

/-- `func inputCells(camera)`, on the mouse state it polls. -/
def inputCells (m : Mouse) (order : List Point) (w : World) : World :=
  let w1 : World :=
    if m.leftDown then
      if m.leftPressed || m.pos != w.lastPos then ⟨paintCell m.pos w.grid, m.pos⟩ else w
    else w
  if m.rightDown then { w1 with grid := eraseCell order m.pos w1.grid } else w1

/-! ## Reading a grid -/

/-- Whether `p` has an alive record (absent counts as dead). -/
def aliveAt (g : Grid) (p : Point) : Bool :=
  match g.lookup p with
  | some cell => cell.alive
  | none => false

/-- Number of the 8 Moore neighbours of `p` that have an alive record. -/
def aliveNeighbors (g : Grid) (p : Point) : Nat :=
  direction.countP (fun d => aliveAt g (p.add d))

/-- Every record's `neighbors` is its number of alive Moore neighbours. -/
def countsOK (g : Grid) : Prop :=
  ∀ e ∈ g.entries, e.2.neighbors.val = (aliveNeighbors g e.1 : Int)

/-- Every Moore neighbour of an alive record has a record. -/
def frontierOK (g : Grid) : Prop :=
  ∀ e ∈ g.entries, e.2.alive = true → ∀ d ∈ direction, (g.lookup (e.1.add d)).isSome = true

/-- Well-formed grid: counts right and frontier tracked. -/
def wellFormed (g : Grid) : Prop := countsOK g ∧ frontierOK g

instance (g : Grid) : Decidable (countsOK g) := by unfold countsOK; infer_instance
instance (g : Grid) : Decidable (frontierOK g) := by unfold frontierOK; infer_instance
instance (g : Grid) : Decidable (wellFormed g) := by unfold wellFormed; infer_instance

/-- The L of three alive cells. -/
def ell : Grid := paintCell (pt 0 1) (paintCell (pt 1 0) (paintCell (pt 0 0) ∅))

/-- The blinker, painted cell by cell. -/
def blinker : Grid := paintCell (pt 2 0) (paintCell (pt 1 0) (paintCell (pt 0 0) ∅))

/-- The block, painted cell by cell. -/
def block : Grid :=
  paintCell (pt 1 1) (paintCell (pt 0 1) (paintCell (pt 1 0) (paintCell (pt 0 0) ∅)))

/-- The same visiting order for the three loops. -/
def sameOrder (l : List Point) : TickOrders := ⟨l, l, l⟩

/-- The points of the square with corners (-3,-3) and (4,4), row by row. -/
def box : List Point :=
  ((List.range 8).map fun i => (List.range 8).map fun j => pt ((i : Int) - 3) ((j : Int) - 3)).flatten

/-- The blinker after one `tickStep` in key order. -/
def blinker1 : Grid := tickStep (keyOrders blinker) blinker

/-- The block after one `tickStep` in key order. -/
def block1 : Grid := tickStep (keyOrders block) block

/-- A run of `tickStep` calls, one entry of visiting orders per call. -/
def tickSteps : List TickOrders → Grid → Grid
  | [], g => g
  | o :: os, g => tickSteps os (tickStep o g)

/-- Every call of the run has orders Go allows for the grid it starts on. -/
def validRun : List TickOrders → Grid → Prop
  | [], _ => True
  | o :: os, g => o.valid g ∧ validRun os (tickStep o g)

/-! ## The lookups `checkNeighbor` performs -/

/-- One iteration of the loop of `checkNeighbor`: the neighbour position, the `state`
argument of the call, and the result of `grid[pos]` at line 118 (`none` when the
`else` branch of line 121 runs). -/
structure Visit where
  pos : Point
  state : Bool
  found : Option Cell

/-- The iterations of one call `checkNeighbor(point, state)` over the directions given,
each with the lookup it sees. -/
def checkNeighborVisits (point : Point) (state : Bool) : List Point → Grid → List Visit
  | [], _ => []
  | dir :: ds, g =>
    ⟨point.add dir, state, g.lookup (point.add dir)⟩ ::
      checkNeighborVisits point state ds (bump (changeOf state) g (point.add dir))

/-- The iterations of all calls of `checkNeighbor` made by the second loop of `tickStep`
(line 145). -/
def commitVisits : List Point → Grid → List Visit
  | [], _ => []
  | p :: ps, g =>
    match g.lookup p with
    | some cell =>
      if cell.nextState != cell.alive then
        checkNeighborVisits p cell.nextState direction
            (g.insert p { cell with alive := cell.nextState }) ++
          commitVisits ps (commitBody p cell g)
      else commitVisits ps (commitBody p cell g)
    | none => commitVisits ps g

/-- The iterations of all calls of `checkNeighbor` made by one `tickStep`. -/
def tickVisits (o : TickOrders) (g : Grid) : List Visit :=
  commitVisits o.commit (rangeLoop computeBody o.compute g)

/-- The iterations of the call of `checkNeighbor` made by the erase action (line 86). -/
def eraseVisits (pos : Point) (g : Grid) : List Visit :=
  match g.lookup pos with
  | some cell =>
    if cell.alive then
      checkNeighborVisits pos false direction (g.insert pos { cell with alive := false })
    else []
  | none => []

/-- A left-button press on the cell `p`. -/
def press (p : Point) : Mouse := ⟨true, true, false, p⟩

/-- The globals at program start: the empty map of `init`, `lastPos` zero. -/
def start : World := ⟨∅, pt 0 0⟩

/-! ## Auxiliary notions used in the proofs -/

/-- The opposite direction. -/
def Point.neg (d : Point) : Point := ⟨-d.x, -d.y⟩

/-- The 8 Moore neighbours of `p`, in the order `checkNeighbor` visits them. -/
def nbrs (p : Point) : List Point := direction.map p.add

/-- The record `checkNeighbor` leaves at a neighbour position, from what the map held. -/
def bumpCell (change : int32) : Option Cell → Cell
  | some cell => { cell with neighbors := cell.neighbors.add change }
  | none => ⟨false, 1, false⟩

/-- What the third loop leaves of a record: nothing when it is dead with no neighbours. -/
def pruned : Option Cell → Option Cell
  | some cell => if !cell.alive && decide (cell.neighbors.val = 0) then none else some cell
  | none => none

/-- The value the first loop stores in `nextState`. -/
def rule (cell : Cell) : Bool :=
  if cell.alive then decide (cell.neighbors.val ≥ 2) && decide (cell.neighbors.val ≤ 3)
  else decide (cell.neighbors.val = 3)

/-- The record the first loop leaves. -/
def computed (cell : Cell) : Cell := { cell with nextState := rule cell }

/-- The alive flag and the count of a record (`nextState` is scratch). -/
def view (cell : Cell) : Bool × int32 := (cell.alive, cell.neighbors)

/-- The `nextState` stored at `q` (false when absent). -/
def nextOf (g : Grid) (q : Point) : Bool :=
  match g.lookup q with
  | some cell => cell.nextState
  | none => false

/-- The record at `q`, if any, has `alive` equal to `nextState`. -/
def settled (g : Grid) (q : Point) : Prop :=
  ∀ c, g.lookup q = some c → c.alive = c.nextState

/-- Whether `q` is alive in the next generation, from its record. -/
def nextAlive (g : Grid) (q : Point) : Bool :=
  match g.lookup q with
  | some cell => rule cell
  | none => false

/-- Number of Moore neighbours of `q` alive in the next generation. -/
def nextNeighbors (g : Grid) (q : Point) : Nat :=
  direction.countP (fun d => nextAlive g (q.add d))

/-- The record of `q` after one generation, in closed form. -/
def tickCell (g : Grid) (q : Point) : Option Cell :=
  if nextAlive g q || decide (nextNeighbors g q ≠ 0) then
    some ⟨nextAlive g q, int32.ofInt (nextNeighbors g q), nextAlive g q⟩
  else none

/-- A lookup of `checkNeighbor` that is safe: a decrement finds a record whose count is
at least 1, and the record stored has a count that is not negative. -/
def visitOK (v : Visit) : Prop :=
  (v.state = false → ∃ c, v.found = some c ∧ 1 ≤ c.neighbors.val) ∧
    0 ≤ (bumpCell (changeOf v.state) v.found).neighbors.val

/-! ## Integers and geometry -/

theorem int32_eq_of_val {a b : int32} (h : a.val = b.val) : a = b := by
  cases a; cases b; simp only [int32.mk.injEq]; exact h

theorem point_eq_of_val {p q : Point} (hx : p.x.val = q.x.val) (hy : p.y.val = q.y.val) :
    p = q := by
  cases p; cases q
  simp only [Point.mk.injEq]
  exact ⟨int32_eq_of_val hx, int32_eq_of_val hy⟩

theorem int32_add_val (a b : int32) : (a.add b).val = wrap32 (a.val + b.val) := rfl

theorem int32_neg_val (a : int32) : (-a).val = wrap32 (-a.val) := rfl

theorem point_add_neg (p d : Point) : (p.add d).add d.neg = p := by
  apply point_eq_of_val
  · have h1 := p.x.lo; have h2 := p.x.hi; have h3 := d.x.lo; have h4 := d.x.hi
    simp only [Point.add, Point.neg, int32_add_val, int32_neg_val, wrap32]
    omega
  · have h1 := p.y.lo; have h2 := p.y.hi; have h3 := d.y.lo; have h4 := d.y.hi
    simp only [Point.add, Point.neg, int32_add_val, int32_neg_val, wrap32]
    omega

theorem point_add_cancel {p d e : Point} (h : p.add d = p.add e) : d = e := by
  have hx : (p.add d).x.val = (p.add e).x.val := by rw [h]
  have hy : (p.add d).y.val = (p.add e).y.val := by rw [h]
  simp only [Point.add, int32_add_val, wrap32] at hx hy
  apply point_eq_of_val
  · have h1 := p.x.lo; have h2 := p.x.hi; have h3 := d.x.lo; have h4 := d.x.hi
    have h5 := e.x.lo; have h6 := e.x.hi
    omega
  · have h1 := p.y.lo; have h2 := p.y.hi; have h3 := d.y.lo; have h4 := d.y.hi
    have h5 := e.y.lo; have h6 := e.y.hi
    omega

theorem point_add_zero (p : Point) : p.add (pt 0 0) = p := by
  apply point_eq_of_val
  · have h1 := p.x.lo; have h2 := p.x.hi
    simp only [Point.add, pt, int32_add_val, int32.ofInt, wrap32]
    omega
  · have h1 := p.y.lo; have h2 := p.y.hi
    simp only [Point.add, pt, int32_add_val, int32.ofInt, wrap32]
    omega

theorem direction_nodup : direction.Nodup := by decide

theorem neg_mem_direction : ∀ d ∈ direction, d.neg ∈ direction := by decide

theorem zero_not_mem_direction : pt 0 0 ∉ direction := by decide

theorem direction_length : direction.length = 8 := rfl

theorem add_ne_self {p d : Point} (hd : d ∈ direction) : p.add d ≠ p := by
  intro h
  have h0 : p.add d = p.add (pt 0 0) := by rw [h, point_add_zero]
  have := point_add_cancel h0
  subst this
  exact zero_not_mem_direction hd

theorem mem_nbrs {p q : Point} : q ∈ nbrs p ↔ ∃ d ∈ direction, p.add d = q := by
  simp [nbrs]

theorem not_mem_nbrs_self (p : Point) : p ∉ nbrs p := by
  intro h
  obtain ⟨d, hd, he⟩ := mem_nbrs.1 h
  exact add_ne_self hd he

theorem nbrs_symm {p q : Point} (h : q ∈ nbrs p) : p ∈ nbrs q := by
  obtain ⟨d, hd, he⟩ := mem_nbrs.1 h
  refine mem_nbrs.2 ⟨d.neg, neg_mem_direction d hd, ?_⟩
  rw [← he, point_add_neg]

theorem nbrs_nodup (p : Point) : (nbrs p).Nodup := by
  unfold nbrs
  exact List.Nodup.map (fun _ _ h => point_add_cancel h) direction_nodup

theorem add_mem_nbrs {p d : Point} (hd : d ∈ direction) : p.add d ∈ nbrs p :=
  mem_nbrs.2 ⟨d, hd, rfl⟩

/-! ## Lookups after `checkNeighbor` -/

theorem lookup_insert_eq (g : Grid) (p q : Point) (c : Cell) :
    (g.insert p c).lookup q = if q = p then some c else g.lookup q := by
  by_cases h : q = p
  · subst h; simp
  · simp [h, AList.lookup_insert_ne h]

theorem lookup_bump (ch : int32) (g : Grid) (pos q : Point) :
    (bump ch g pos).lookup q = if q = pos then some (bumpCell ch (g.lookup pos)) else g.lookup q := by
  unfold bump
  cases hl : g.lookup pos with
  | none => simp only [bumpCell]; exact lookup_insert_eq g pos q _
  | some cell => simp only [bumpCell]; exact lookup_insert_eq g pos q _

theorem lookup_foldl_bump (ch : int32) (p q : Point) :
    ∀ (ds : List Point) (g : Grid), (ds.map p.add).Nodup →
      (ds.foldl (fun g dir => bump ch g (p.add dir)) g).lookup q =
        if q ∈ ds.map p.add then some (bumpCell ch (g.lookup q)) else g.lookup q := by
  intro ds
  induction ds with
  | nil => intro g _; simp
  | cons d ds ih =>
    intro g hn
    rw [List.map_cons, List.nodup_cons] at hn
    rw [List.foldl_cons, ih _ hn.2, lookup_bump]
    by_cases hq : q = p.add d
    · subst hq
      simp [hn.1]
    · by_cases hm : q ∈ ds.map p.add
      · simp [hq, hm]
      · simp [hq, hm]

theorem lookup_checkNeighbor (p : Point) (s : Bool) (g : Grid) (q : Point) :
    (checkNeighbor p s g).lookup q =
      if q ∈ nbrs p then some (bumpCell (changeOf s) (g.lookup q)) else g.lookup q :=
  lookup_foldl_bump (changeOf s) p q direction g (nbrs_nodup p)

/-- Lookups after one flip: the record written at `p`, then `checkNeighbor`. -/
theorem lookup_flip (g : Grid) (p : Point) (c : Cell) (s : Bool) (q : Point) :
    (checkNeighbor p s (g.insert p c)).lookup q =
      if q = p then some c
      else if q ∈ nbrs p then some (bumpCell (changeOf s) (g.lookup q))
      else g.lookup q := by
  rw [lookup_checkNeighbor, lookup_insert_eq]
  by_cases hq : q = p
  · subst hq; simp [not_mem_nbrs_self]
  · simp [hq]

theorem bumpCell_alive (ch : int32) (oc : Option Cell) :
    (bumpCell ch oc).alive = (match oc with | some c => c.alive | none => false) := by
  cases oc <;> rfl

theorem aliveAt_flip (g : Grid) (p : Point) (c : Cell) (s : Bool) (q : Point) :
    aliveAt (checkNeighbor p s (g.insert p c)) q = if q = p then c.alive else aliveAt g q := by
  unfold aliveAt
  rw [lookup_flip]
  by_cases hq : q = p
  · simp [hq]
  · by_cases hm : q ∈ nbrs p
    · simp only [hq, hm, if_true, if_false, bumpCell_alive]
    · simp [hq, hm]

theorem mem_flip_of_mem (g : Grid) (p : Point) (c : Cell) (s : Bool) (q : Point)
    (h : (g.lookup q).isSome = true) :
    ((checkNeighbor p s (g.insert p c)).lookup q).isSome = true := by
  rw [lookup_flip]
  by_cases hq : q = p
  · simp [hq]
  · by_cases hm : q ∈ nbrs p
    · simp [hq, hm]
    · simp [hq, hm, h]

/-! ## Counting alive neighbours -/

theorem countP_set_of_not_mem {α : Type} [DecidableEq α] (f : α → Bool) (a : α) (s : Bool) :
    ∀ l : List α, a ∉ l → l.countP (fun d => if d = a then s else f d) = l.countP f := by
  intro l hl
  apply List.countP_congr
  intro x hx
  have : x ≠ a := fun h => hl (h ▸ hx)
  simp [this]

theorem countP_set_true {α : Type} [DecidableEq α] (f : α → Bool) (a : α) :
    ∀ l : List α, l.Nodup → a ∈ l → f a = false →
      l.countP (fun d => if d = a then true else f d) = l.countP f + 1 := by
  intro l
  induction l with
  | nil => intro _ h; simp at h
  | cons x xs ih =>
    intro hn hm hf
    rw [List.nodup_cons] at hn
    by_cases hx : x = a
    · subst hx
      rw [List.countP_cons, List.countP_cons, countP_set_of_not_mem f x true xs hn.1]
      simp [hf]
    · have hm2 : a ∈ xs := by
        rcases List.mem_cons.1 hm with h | h
        · exact absurd h.symm hx
        · exact h
      rw [List.countP_cons, List.countP_cons, ih hn.2 hm2 hf]
      simp only [hx, if_false]
      omega

theorem countP_set_false {α : Type} [DecidableEq α] (f : α → Bool) (a : α) :
    ∀ l : List α, l.Nodup → a ∈ l → f a = true →
      l.countP (fun d => if d = a then false else f d) + 1 = l.countP f := by
  intro l
  induction l with
  | nil => intro _ h; simp at h
  | cons x xs ih =>
    intro hn hm hf
    rw [List.nodup_cons] at hn
    by_cases hx : x = a
    · subst hx
      rw [List.countP_cons, List.countP_cons, countP_set_of_not_mem f x false xs hn.1]
      simp [hf]
    · have hm2 : a ∈ xs := by
        rcases List.mem_cons.1 hm with h | h
        · exact absurd h.symm hx
        · exact h
      rw [List.countP_cons, List.countP_cons, ← ih hn.2 hm2 hf]
      simp only [hx, if_false]
      omega

theorem aliveNeighbors_le (g : Grid) (p : Point) : aliveNeighbors g p ≤ 8 := by
  unfold aliveNeighbors
  exact (List.countP_le_length _).trans (le_of_eq direction_length)

/-- The count at `q` as a function of the alive flags, when only `p` changed. -/
theorem aliveNeighbors_flip (g : Grid) (p : Point) (c : Cell) (s : Bool) (q : Point) :
    aliveNeighbors (checkNeighbor p s (g.insert p c)) q =
      direction.countP (fun d => if q.add d = p then c.alive else aliveAt g (q.add d)) := by
  unfold aliveNeighbors
  apply List.countP_congr
  intro d _
  rw [aliveAt_flip]

theorem aliveNeighbors_flip_far (g : Grid) (p : Point) (c : Cell) (s : Bool) (q : Point)
    (hq : q ∉ nbrs p) :
    aliveNeighbors (checkNeighbor p s (g.insert p c)) q = aliveNeighbors g q := by
  rw [aliveNeighbors_flip]
  unfold aliveNeighbors
  apply List.countP_congr
  intro d hd
  have : q.add d ≠ p := by
    intro h
    exact hq (nbrs_symm (mem_nbrs.2 ⟨d, hd, h⟩))
  simp [this]

theorem aliveNeighbors_flip_near_aux (g : Grid) (p : Point) (b : Bool) (q : Point)
    (d0 : Point) (he : p.add d0 = q) :
    direction.countP (fun d => if q.add d = p then b else aliveAt g (q.add d)) =
      direction.countP (fun d => if d = d0.neg then b else aliveAt g (q.add d)) := by
  apply List.countP_congr
  intro d _
  have hiff : q.add d = p ↔ d = d0.neg := by
    constructor
    · intro h
      have h2 : q.add d = q.add d0.neg := by rw [h, ← he, point_add_neg]
      exact point_add_cancel h2
    · intro h
      rw [h, ← he, point_add_neg]
  by_cases hd : d = d0.neg
  · rw [if_pos (hiff.2 hd), if_pos hd]
  · have : q.add d ≠ p := fun h => hd (hiff.1 h)
    rw [if_neg this, if_neg hd]

theorem aliveNeighbors_flip_born (g : Grid) (p : Point) (c : Cell) (s : Bool) (q : Point)
    (hq : q ∈ nbrs p) (hc : c.alive = true) (hp : aliveAt g p = false) :
    aliveNeighbors (checkNeighbor p s (g.insert p c)) q = aliveNeighbors g q + 1 := by
  obtain ⟨d0, hd0, he⟩ := mem_nbrs.1 hq
  rw [aliveNeighbors_flip, aliveNeighbors_flip_near_aux g p c.alive q d0 he, hc]
  unfold aliveNeighbors
  apply countP_set_true (fun d => aliveAt g (q.add d)) d0.neg direction direction_nodup
    (neg_mem_direction d0 hd0)
  show aliveAt g (q.add d0.neg) = false
  rw [← he, point_add_neg, hp]

theorem aliveNeighbors_flip_died (g : Grid) (p : Point) (c : Cell) (s : Bool) (q : Point)
    (hq : q ∈ nbrs p) (hc : c.alive = false) (hp : aliveAt g p = true) :
    aliveNeighbors (checkNeighbor p s (g.insert p c)) q + 1 = aliveNeighbors g q := by
  obtain ⟨d0, hd0, he⟩ := mem_nbrs.1 hq
  rw [aliveNeighbors_flip, aliveNeighbors_flip_near_aux g p c.alive q d0 he, hc]
  unfold aliveNeighbors
  apply countP_set_false (fun d => aliveAt g (q.add d)) d0.neg direction direction_nodup
    (neg_mem_direction d0 hd0)
  show aliveAt g (q.add d0.neg) = true
  rw [← he, point_add_neg, hp]

/-! ## Well-formedness through lookups -/

theorem countsOK_def {g : Grid} :
    countsOK g ↔ ∀ p c, g.lookup p = some c → c.neighbors.val = (aliveNeighbors g p : Int) := by
  constructor
  · intro h p c hl
    exact h ⟨p, c⟩ (AList.mem_lookup_iff.1 hl)
  · intro h e he
    cases e with
    | mk p c => exact h p c (AList.mem_lookup_iff.2 he)

theorem aliveAt_eq_true {g : Grid} {p : Point} :
    aliveAt g p = true ↔ ∃ c, g.lookup p = some c ∧ c.alive = true := by
  unfold aliveAt
  cases g.lookup p with
  | none => simp
  | some c => simp

theorem frontierOK_def {g : Grid} :
    frontierOK g ↔ ∀ p, aliveAt g p = true → ∀ q ∈ nbrs p, (g.lookup q).isSome = true := by
  constructor
  · intro h p hp q hq
    obtain ⟨c, hl, hc⟩ := aliveAt_eq_true.1 hp
    obtain ⟨d, hd, he⟩ := mem_nbrs.1 hq
    have := h ⟨p, c⟩ (AList.mem_lookup_iff.1 hl) hc d hd
    rw [← he]; exact this
  · intro h e he hc d hd
    cases e with
    | mk p c =>
      have hl : g.lookup p = some c := AList.mem_lookup_iff.2 he
      exact h p (aliveAt_eq_true.2 ⟨c, hl, hc⟩) _ (add_mem_nbrs hd)

theorem aliveNeighbors_eq_zero_of_absent {g : Grid} (hf : frontierOK g) {q : Point}
    (hq : g.lookup q = none) : aliveNeighbors g q = 0 := by
  unfold aliveNeighbors
  rw [List.countP_eq_zero]
  intro d hd ha
  have := frontierOK_def.1 hf (q.add d) ha q (nbrs_symm (add_mem_nbrs hd))
  rw [hq] at this
  exact Bool.noConfusion this

theorem aliveNeighbors_pos {g : Grid} {p q : Point} (hp : aliveAt g p = true) (hq : q ∈ nbrs p) :
    1 ≤ aliveNeighbors g q := by
  unfold aliveNeighbors
  obtain ⟨d, hd, he⟩ := mem_nbrs.1 (nbrs_symm hq)
  apply List.countP_pos_iff.2
  exact ⟨d, hd, by rw [he]; exact hp⟩

theorem ofInt_val_small (n : Nat) (h : n ≤ 8) : (int32.ofInt (n : Int)).val = n := by
  show wrap32 n = n
  unfold wrap32; omega

theorem add_one_val (a : int32) (n : Nat) (h : a.val = n) (hn : n ≤ 8) :
    (a.add (changeOf true)).val = (n : Int) + 1 := by
  show wrap32 (a.val + wrap32 1) = _
  unfold wrap32; omega

theorem sub_one_val (a : int32) (n : Nat) (h : a.val = (n : Int) + 1) (hn : n ≤ 8) :
    (a.add (changeOf false)).val = (n : Int) := by
  show wrap32 (a.val + wrap32 (-(wrap32 1))) = _
  unfold wrap32; omega

/-- One flip of `p` (the record with the new flag written, then `checkNeighbor`) keeps a
well-formed grid well-formed. -/
theorem wellFormed_flip (g : Grid) (p : Point) (c : Cell) (s : Bool) (hw : wellFormed g)
    (ha : aliveAt g p = !s) (hc : c.alive = s) (hn : c.neighbors.val = (aliveNeighbors g p : Int)) :
    wellFormed (checkNeighbor p s (g.insert p c)) := by
  obtain ⟨hcount, hfront⟩ := hw
  have hcount2 := countsOK_def.1 hcount
  have hfront2 := frontierOK_def.1 hfront
  constructor
  · rw [countsOK_def]
    intro q cq hl
    rw [lookup_flip] at hl
    by_cases hqp : q = p
    · subst hqp
      simp only [if_true, Option.some.injEq] at hl
      subst hl
      rw [aliveNeighbors_flip_far g q c s q (not_mem_nbrs_self q)]
      exact hn
    · simp only [hqp, if_false] at hl
      by_cases hm : q ∈ nbrs p
      · simp only [hm, if_true, Option.some.injEq] at hl
        subst hl
        cases s with
        | true =>
          have hp : aliveAt g p = false := by simpa using ha
          rw [aliveNeighbors_flip_born g p c true q hm hc hp]
          cases hq : g.lookup q with
          | none =>
            rw [aliveNeighbors_eq_zero_of_absent hfront hq]
            rfl
          | some c0 =>
            simp only [bumpCell]
            have h0 := hcount2 q c0 hq
            have := add_one_val c0.neighbors _ h0 (aliveNeighbors_le g q)
            rw [this]; push_cast; rfl
        | false =>
          have hp : aliveAt g p = true := by simpa using ha
          have hdec := aliveNeighbors_flip_died g p c false q hm hc hp
          cases hq : g.lookup q with
          | none =>
            have := hfront2 p hp q hm
            rw [hq] at this
            exact Bool.noConfusion this
          | some c0 =>
            simp only [bumpCell]
            have h0 := hcount2 q c0 hq
            have hle := aliveNeighbors_le g q
            have h1 : c0.neighbors.val =
                ((aliveNeighbors (checkNeighbor p false (g.insert p c)) q : Nat) : Int) + 1 := by
              rw [h0, ← hdec]; push_cast; rfl
            exact sub_one_val c0.neighbors _ h1 (by omega)
      · simp only [hm, if_false] at hl
        rw [aliveNeighbors_flip_far g p c s q hm]
        exact hcount2 q cq hl
  · rw [frontierOK_def]
    intro q hq r hr
    rw [aliveAt_flip] at hq
    by_cases hqp : q = p
    · subst hqp
      rw [lookup_flip]
      have : r ≠ q := fun h => not_mem_nbrs_self q (h ▸ hr)
      simp [this, hr]
    · simp only [hqp, if_false] at hq
      exact mem_flip_of_mem g p c s r (hfront2 q hq r hr)

/-! ## The three loops of `tickStep` -/

theorem lookup_erase_eq (g : Grid) (p q : Point) :
    (g.erase p).lookup q = if q = p then none else g.lookup q := by
  by_cases h : q = p
  · subst h; simp
  · simp [h, AList.lookup_erase_ne h]

theorem pruned_idem (oc : Option Cell) : pruned (pruned oc) = pruned oc := by
  cases oc with
  | none => rfl
  | some c =>
    by_cases h : (!c.alive && decide (c.neighbors.val = 0)) = true
    · simp only [pruned]; rw [if_pos h]
    · simp only [pruned]; rw [if_neg h]; simp only [pruned]; rw [if_neg h]

theorem lookup_pruneBody (g : Grid) (p : Point) (c : Cell) (hl : g.lookup p = some c) (q : Point) :
    (pruneBody p c g).lookup q = if q = p then pruned (g.lookup q) else g.lookup q := by
  unfold pruneBody
  by_cases h : (!c.alive && decide (c.neighbors.val = 0)) = true
  · rw [if_pos h, lookup_erase_eq]
    by_cases hq : q = p
    · subst hq; simp [hl, pruned, h]
    · simp [hq]
  · rw [if_neg h]
    by_cases hq : q = p
    · subst hq; simp [hl, pruned, h]
    · simp [hq]

/-- The third loop, whatever the order: a visited key keeps its record unless the record
is dead with no neighbours. -/
theorem lookup_prune (order : List Point) :
    ∀ (g : Grid) (q : Point),
      (rangeLoop pruneBody order g).lookup q =
        if q ∈ order then pruned (g.lookup q) else g.lookup q := by
  induction order with
  | nil => intro g q; simp [rangeLoop]
  | cons p ps ih =>
    intro g q
    cases hl : g.lookup p with
    | none =>
      simp only [rangeLoop, hl]
      rw [ih]
      by_cases hq : q = p
      · subst hq; simp [hl, pruned]
      · simp [hq]
    | some c =>
      simp only [rangeLoop, hl]
      rw [ih, lookup_pruneBody g p c hl]
      by_cases hq : q = p
      · subst hq; simp [pruned_idem]
      · simp [hq]

theorem lookup_prune_of_order {order : List Point} {g : Grid} (h : rangeOrder order g)
    (q : Point) : (rangeLoop pruneBody order g).lookup q = pruned (g.lookup q) := by
  rw [lookup_prune]
  by_cases hq : q ∈ order
  · simp [hq]
  · have : q ∉ g := fun hm => hq (h.2 q (AList.mem_keys.1 hm))
    simp [hq, AList.lookup_eq_none.2 this, pruned]

theorem computed_idem (c : Cell) : computed (computed c) = computed c := rfl

theorem lookup_computeBody (g : Grid) (p : Point) (c : Cell) (hl : g.lookup p = some c)
    (q : Point) :
    (computeBody p c g).lookup q = if q = p then (g.lookup q).map computed else g.lookup q := by
  unfold computeBody
  cases ha : c.alive with
  | true =>
    simp only [if_true]
    rw [lookup_insert_eq]
    by_cases hq : q = p
    · subst hq; simp [hl, computed, rule, ha]
    · simp [hq]
  | false =>
    simp only [Bool.false_eq_true, if_false, Bool.not_false, if_true]
    rw [lookup_insert_eq]
    by_cases hq : q = p
    · subst hq; simp [hl, computed, rule, ha]
    · simp [hq]

/-- The first loop, whatever the order: a visited key gets its `nextState` computed. -/
theorem lookup_compute (order : List Point) :
    ∀ (g : Grid) (q : Point),
      (rangeLoop computeBody order g).lookup q =
        if q ∈ order then (g.lookup q).map computed else g.lookup q := by
  induction order with
  | nil => intro g q; simp [rangeLoop]
  | cons p ps ih =>
    intro g q
    cases hl : g.lookup p with
    | none =>
      simp only [rangeLoop, hl]
      rw [ih]
      by_cases hq : q = p
      · subst hq; simp [hl]
      · simp [hq]
    | some c =>
      simp only [rangeLoop, hl]
      rw [ih, lookup_computeBody g p c hl]
      by_cases hq : q = p
      · subst hq; simp [hl, computed_idem]
      · simp [hq]

theorem lookup_compute_of_order {order : List Point} {g : Grid} (h : rangeOrder order g)
    (q : Point) : (rangeLoop computeBody order g).lookup q = (g.lookup q).map computed := by
  rw [lookup_compute]
  by_cases hq : q ∈ order
  · simp [hq]
  · have : q ∉ g := fun hm => hq (h.2 q (AList.mem_keys.1 hm))
    simp [hq, AList.lookup_eq_none.2 this]

/-! ## Grids that agree on alive flags and counts -/

theorem aliveAt_congr {g h : Grid} (hv : ∀ q, (g.lookup q).map view = (h.lookup q).map view)
    (q : Point) : aliveAt g q = aliveAt h q := by
  have := hv q
  unfold aliveAt
  cases hg : g.lookup q with
  | none =>
    cases hh : h.lookup q with
    | none => rfl
    | some b => rw [hg, hh] at this; simp at this
  | some a =>
    cases hh : h.lookup q with
    | none => rw [hg, hh] at this; simp at this
    | some b =>
      rw [hg, hh] at this
      simp only [Option.map_some', Option.some.injEq, view, Prod.mk.injEq] at this
      exact this.1

theorem aliveNeighbors_congr {g h : Grid}
    (hv : ∀ q, (g.lookup q).map view = (h.lookup q).map view) (q : Point) :
    aliveNeighbors g q = aliveNeighbors h q := by
  unfold aliveNeighbors
  apply List.countP_congr
  intro d _
  rw [aliveAt_congr hv]

theorem wellFormed_congr {g h : Grid}
    (hv : ∀ q, (g.lookup q).map view = (h.lookup q).map view) (hw : wellFormed g) :
    wellFormed h := by
  obtain ⟨hc, hf⟩ := hw
  constructor
  · rw [countsOK_def]
    intro q b hb
    have := hv q
    rw [hb] at this
    cases hg : g.lookup q with
    | none => rw [hg] at this; simp at this
    | some a =>
      rw [hg] at this
      simp only [Option.map_some', Option.some.injEq, view, Prod.mk.injEq] at this
      rw [← this.2, ← aliveNeighbors_congr hv]
      exact countsOK_def.1 hc q a hg
  · rw [frontierOK_def]
    intro p hp q hq
    rw [← aliveAt_congr hv] at hp
    have h1 := frontierOK_def.1 hf p hp q hq
    have h2 := hv q
    cases hg : g.lookup q with
    | none => rw [hg] at h1; exact Bool.noConfusion h1
    | some a =>
      rw [hg] at h2
      cases hh : h.lookup q with
      | none => rw [hh] at h2; simp at h2
      | some b => rfl

theorem nextAlive_congr {g h : Grid} (hv : ∀ q, (g.lookup q).map view = (h.lookup q).map view)
    (q : Point) : nextAlive g q = nextAlive h q := by
  have := hv q
  unfold nextAlive
  cases hg : g.lookup q with
  | none =>
    cases hh : h.lookup q with
    | none => rfl
    | some b => rw [hg, hh] at this; simp at this
  | some a =>
    cases hh : h.lookup q with
    | none => rw [hg, hh] at this; simp at this
    | some b =>
      rw [hg, hh] at this
      simp only [Option.map_some', Option.some.injEq, view, Prod.mk.injEq] at this
      simp only [rule, this.1, this.2]

theorem tickCell_congr {g h : Grid} (hv : ∀ q, (g.lookup q).map view = (h.lookup q).map view)
    (q : Point) : tickCell g q = tickCell h q := by
  have hn : nextNeighbors g q = nextNeighbors h q := by
    unfold nextNeighbors
    apply List.countP_congr
    intro d _
    rw [nextAlive_congr hv]
  unfold tickCell
  rw [nextAlive_congr hv q, hn]

/-! ## The second loop -/

theorem commit_step (g : Grid) (p : Point) (c : Cell) (hl : g.lookup p = some c)
    (hw : wellFormed g) :
    wellFormed (commitBody p c g) ∧
    (∀ q, nextOf (commitBody p c g) q = nextOf g q) ∧
    (∀ q, (g.lookup q).isSome = true → ((commitBody p c g).lookup q).isSome = true) ∧
    (∀ q, (q = p ∨ settled g q) → settled (commitBody p c g) q) := by
  unfold commitBody
  by_cases h : (c.nextState != c.alive) = true
  · rw [if_pos h]
    have hne : c.alive = !c.nextState := by
      revert h; cases c.alive <;> cases c.nextState <;> simp
    have ha : aliveAt g p = !c.nextState := by
      unfold aliveAt; rw [hl]; exact hne
    refine ⟨?_, ?_, ?_, ?_⟩
    · exact wellFormed_flip g p _ _ hw ha rfl (countsOK_def.1 hw.1 p c hl)
    · intro q
      unfold nextOf
      rw [lookup_flip]
      by_cases hq : q = p
      · subst hq; simp [hl]
      · by_cases hm : q ∈ nbrs p
        · simp only [hq, hm, if_true, if_false]
          cases g.lookup q <;> rfl
        · simp [hq, hm]
    · intro q hq
      exact mem_flip_of_mem g p _ _ q hq
    · intro q hq b hb
      rw [lookup_flip] at hb
      by_cases hqp : q = p
      · simp only [hqp, if_true, Option.some.injEq] at hb
        subst hb; rfl
      · simp only [hqp, if_false] at hb
        have hs : settled g q := by
          rcases hq with h1 | h1
          · exact absurd h1 hqp
          · exact h1
        by_cases hm : q ∈ nbrs p
        · simp only [hm, if_true, Option.some.injEq] at hb
          subst hb
          cases hg : g.lookup q with
          | none => rfl
          | some a => exact hs a hg
        · simp only [hm, if_false] at hb
          exact hs b hb
  · rw [if_neg h]
    refine ⟨hw, fun _ => rfl, fun _ hq => hq, ?_⟩
    intro q hq
    rcases hq with h1 | h1
    · subst h1
      intro b hb
      rw [hl] at hb
      simp only [Option.some.injEq] at hb
      subst hb
      revert h; cases c.alive <;> cases c.nextState <;> simp
    · exact h1

theorem settled_of_absent {g : Grid} {q : Point} (h : g.lookup q = none) : settled g q := by
  intro c hc; rw [h] at hc; simp at hc

/-- The second loop, whatever the order: the grid stays well-formed, no `nextState`
changes, no record disappears, and every visited or already settled cell ends with
`alive` equal to `nextState`. -/
theorem commit_loop (order : List Point) :
    ∀ g : Grid, wellFormed g →
      wellFormed (rangeLoop commitBody order g) ∧
      (∀ q, nextOf (rangeLoop commitBody order g) q = nextOf g q) ∧
      (∀ q, (g.lookup q).isSome = true →
        ((rangeLoop commitBody order g).lookup q).isSome = true) ∧
      (∀ q, (q ∈ order ∨ settled g q) → settled (rangeLoop commitBody order g) q) := by
  induction order with
  | nil =>
    intro g hw
    refine ⟨hw, fun _ => rfl, fun _ h => h, ?_⟩
    intro q hq
    rcases hq with h | h
    · simp at h
    · exact h
  | cons p ps ih =>
    intro g hw
    cases hl : g.lookup p with
    | none =>
      simp only [rangeLoop, hl]
      obtain ⟨h1, h2, h3, h4⟩ := ih g hw
      refine ⟨h1, h2, h3, ?_⟩
      intro q hq
      apply h4
      rcases hq with h | h
      · rcases List.mem_cons.1 h with h | h
        · right; subst h; exact settled_of_absent hl
        · left; exact h
      · right; exact h
    | some c =>
      simp only [rangeLoop, hl]
      obtain ⟨s1, s2, s3, s4⟩ := commit_step g p c hl hw
      obtain ⟨h1, h2, h3, h4⟩ := ih _ s1
      refine ⟨h1, fun q => (h2 q).trans (s2 q), fun q hq => h3 q (s3 q hq), ?_⟩
      intro q hq
      apply h4
      rcases hq with h | h
      · rcases List.mem_cons.1 h with h | h
        · right; exact s4 q (Or.inl h)
        · left; exact h
      · right; exact s4 q (Or.inr h)

/-! ## One generation in closed form -/

theorem aliveAt_pruned {g h : Grid} (hp : ∀ q, h.lookup q = pruned (g.lookup q)) (q : Point) :
    aliveAt h q = aliveAt g q := by
  unfold aliveAt
  rw [hp]
  cases hg : g.lookup q with
  | none => rfl
  | some c =>
    cases ha : c.alive with
    | true => simp [pruned, ha]
    | false =>
      by_cases hz : c.neighbors.val = 0
      · simp [pruned, ha, hz]
      · simp [pruned, ha, hz]

theorem pruned_eq_some {oc : Option Cell} {c : Cell} (h : pruned oc = some c) :
    oc = some c ∧ ¬ (c.alive = false ∧ c.neighbors.val = 0) := by
  cases oc with
  | none => simp [pruned] at h
  | some a =>
    by_cases hz : (!a.alive && decide (a.neighbors.val = 0)) = true
    · simp only [pruned] at h; rw [if_pos hz] at h; simp at h
    · simp only [pruned] at h; rw [if_neg hz] at h
      simp only [Option.some.injEq] at h
      subst h
      refine ⟨rfl, ?_⟩
      intro hh
      apply hz
      simp [hh.1, hh.2]

/-- Pruning keeps a well-formed grid well-formed. -/
theorem wellFormed_pruned {g h : Grid} (hw : wellFormed g)
    (hp : ∀ q, h.lookup q = pruned (g.lookup q)) : wellFormed h := by
  have hal := aliveAt_pruned hp
  have hnb : ∀ q, aliveNeighbors h q = aliveNeighbors g q := by
    intro q
    unfold aliveNeighbors
    apply List.countP_congr
    intro d _
    rw [hal]
  constructor
  · rw [countsOK_def]
    intro q c hc
    rw [hp] at hc
    rw [hnb]
    exact countsOK_def.1 hw.1 q c (pruned_eq_some hc).1
  · rw [frontierOK_def]
    intro p hpa q hq
    rw [hal] at hpa
    have h1 := frontierOK_def.1 hw.2 p hpa q hq
    have h2 := aliveNeighbors_pos hpa hq
    rw [hp]
    cases hg : g.lookup q with
    | none => rw [hg] at h1; exact Bool.noConfusion h1
    | some c =>
      have h3 := countsOK_def.1 hw.1 q c hg
      have hz : ¬ c.neighbors.val = 0 := by omega
      simp [pruned, hz]

/-- The grid between the second and the third loop. -/
theorem commit_result (g : Grid) (o : TickOrders) (hw : wellFormed g) (ho : o.valid g) :
    wellFormed (rangeLoop commitBody o.commit (rangeLoop computeBody o.compute g)) ∧
    ∀ q, match (rangeLoop commitBody o.commit (rangeLoop computeBody o.compute g)).lookup q with
      | some c => c.alive = nextAlive g q ∧ c.nextState = nextAlive g q
      | none => nextAlive g q = false := by
  have hl1 : ∀ q, (rangeLoop computeBody o.compute g).lookup q = (g.lookup q).map computed :=
    lookup_compute_of_order ho.1
  have hv : ∀ q, (g.lookup q).map view =
      ((rangeLoop computeBody o.compute g).lookup q).map view := by
    intro q; rw [hl1]; cases g.lookup q <;> rfl
  have hw1 := wellFormed_congr hv hw
  have hnext : ∀ q, nextOf (rangeLoop computeBody o.compute g) q = nextAlive g q := by
    intro q; unfold nextOf nextAlive; rw [hl1]; cases g.lookup q <;> rfl
  obtain ⟨h1, h2, _, h4⟩ := commit_loop o.commit _ hw1
  refine ⟨h1, ?_⟩
  intro q
  have hn2 := (h2 q).trans (hnext q)
  cases hg2 : (rangeLoop commitBody o.commit (rangeLoop computeBody o.compute g)).lookup q with
  | none =>
    show nextAlive g q = false
    rw [← hn2]; unfold nextOf; rw [hg2]
  | some c =>
    show c.alive = nextAlive g q ∧ c.nextState = nextAlive g q
    have hs : settled (rangeLoop commitBody o.commit (rangeLoop computeBody o.compute g)) q := by
      apply h4
      by_cases hm : q ∈ rangeLoop computeBody o.compute g
      · left; exact ho.2.1.2 q (AList.mem_keys.1 hm)
      · right; exact settled_of_absent (AList.lookup_eq_none.2 hm)
    have hc : c.nextState = nextAlive g q := by
      rw [← hn2]; unfold nextOf; rw [hg2]
    exact ⟨(hs c hg2).trans hc, hc⟩

/-- One `tickStep` on a well-formed grid, whatever the visiting orders: the record at
every coordinate is the one the closed form gives. -/
theorem lookup_tickStep (g : Grid) (o : TickOrders) (hw : wellFormed g) (ho : o.valid g)
    (q : Point) : (tickStep o g).lookup q = tickCell g q := by
  unfold tickStep
  rw [lookup_prune_of_order ho.2.2]
  obtain ⟨hw2, hres⟩ := commit_result g o hw ho
  have hal : ∀ r, aliveAt (rangeLoop commitBody o.commit (rangeLoop computeBody o.compute g)) r
      = nextAlive g r := by
    intro r
    have := hres r
    unfold aliveAt
    cases hr : (rangeLoop commitBody o.commit (rangeLoop computeBody o.compute g)).lookup r with
    | none => rw [hr] at this; exact this.symm
    | some c => rw [hr] at this; exact this.1
  have hnn : aliveNeighbors (rangeLoop commitBody o.commit (rangeLoop computeBody o.compute g)) q
      = nextNeighbors g q := by
    unfold aliveNeighbors nextNeighbors
    apply List.countP_congr
    intro d _
    rw [hal]
  have hle : nextNeighbors g q ≤ 8 := by rw [← hnn]; exact aliveNeighbors_le _ _
  have hq := hres q
  cases hg2 : (rangeLoop commitBody o.commit (rangeLoop computeBody o.compute g)).lookup q with
  | none =>
    rw [hg2] at hq
    have hz : nextNeighbors g q = 0 := by
      rw [← hnn]; exact aliveNeighbors_eq_zero_of_absent hw2.2 hg2
    have hq2 : nextAlive g q = false := hq
    simp [pruned, tickCell, hq2, hz]
  | some c =>
    rw [hg2] at hq
    have hq2 : c.alive = nextAlive g q ∧ c.nextState = nextAlive g q := hq
    have hcv : c.neighbors.val = (nextNeighbors g q : Int) := by
      rw [← hnn]; exact countsOK_def.1 hw2.1 q c hg2
    have hcn : c.neighbors = int32.ofInt (nextNeighbors g q) :=
      int32_eq_of_val (by rw [hcv, ofInt_val_small _ hle])
    have hc : c = ⟨nextAlive g q, int32.ofInt (nextNeighbors g q), nextAlive g q⟩ := by
      cases c
      simp only [Cell.mk.injEq]
      exact ⟨hq2.1, hcn, hq2.2⟩
    rw [hc]
    simp only [pruned, tickCell, ofInt_val_small _ hle]
    cases nextAlive g q with
    | true => simp
    | false =>
      by_cases hz : nextNeighbors g q = 0
      · simp [hz]
      · simp [hz]

theorem aliveAt_tickStep (g : Grid) (o : TickOrders) (hw : wellFormed g) (ho : o.valid g)
    (q : Point) : aliveAt (tickStep o g) q = nextAlive g q := by
  unfold aliveAt
  rw [lookup_tickStep g o hw ho]
  unfold tickCell
  cases nextAlive g q with
  | true => simp
  | false =>
    by_cases hz : nextNeighbors g q = 0
    · simp [hz]
    · simp [hz]

theorem wellFormed_tickStep (g : Grid) (o : TickOrders) (hw : wellFormed g) (ho : o.valid g) :
    wellFormed (tickStep o g) :=
  wellFormed_pruned (commit_result g o hw ho).1 (lookup_prune_of_order ho.2.2)

/-- Two well-formed grids with the same alive flags and counts have the same records
after one `tickStep` each, whatever the orders of either run. -/
theorem tickStep_congr {g h : Grid} (o u : TickOrders)
    (hv : ∀ q, (g.lookup q).map view = (h.lookup q).map view)
    (hg : wellFormed g) (hh : wellFormed h) (ho : o.valid g) (hu : u.valid h) (q : Point) :
    (tickStep o g).lookup q = (tickStep u h).lookup q := by
  rw [lookup_tickStep g o hg ho, lookup_tickStep h u hh hu, tickCell_congr hv]

/-! ## Mouse actions -/

theorem wellFormed_unsetCell (g : Grid) (hw : wellFormed g) (p : Point) :
    wellFormed (unsetCell p g) := by
  unfold unsetCell
  cases hl : g.lookup p with
  | none => exact hw
  | some c =>
    show wellFormed (if c.alive = true then
      checkNeighbor p false (g.insert p { c with alive := false }) else g)
    by_cases ha : c.alive = true
    · rw [if_pos ha]
      refine wellFormed_flip g p { c with alive := false } false hw ?_ rfl ?_
      · unfold aliveAt; rw [hl]; simpa using ha
      · exact countsOK_def.1 hw.1 p c hl
    · rw [if_neg ha]; exact hw

theorem eraseCell_eq (order : List Point) (p : Point) (g : Grid) (ha : aliveAt g p = true) :
    eraseCell order p g = rangeLoop pruneBody order (unsetCell p g) := by
  obtain ⟨c, hl, hc⟩ := aliveAt_eq_true.1 ha
  unfold eraseCell unsetCell
  rw [hl]
  simp only [hc, if_true]

theorem eraseCell_of_not_alive (order : List Point) (p : Point) (g : Grid)
    (ha : aliveAt g p = false) : eraseCell order p g = g := by
  unfold eraseCell
  unfold aliveAt at ha
  cases hl : g.lookup p with
  | none => rfl
  | some c =>
    rw [hl] at ha
    have hc : c.alive = false := ha
    simp only [hc, Bool.false_eq_true, if_false]

theorem wellFormed_eraseCell (g : Grid) (hw : wellFormed g) (order : List Point) (p : Point)
    (ho : rangeOrder order (unsetCell p g)) : wellFormed (eraseCell order p g) := by
  cases ha : aliveAt g p with
  | false => rw [eraseCell_of_not_alive order p g ha]; exact hw
  | true =>
    rw [eraseCell_eq order p g ha]
    exact wellFormed_pruned (wellFormed_unsetCell g hw p) (lookup_prune_of_order ho)

theorem wellFormed_paintCell (g : Grid) (hw : wellFormed g) (p : Point)
    (ha : aliveAt g p = false) : wellFormed (paintCell p g) := by
  unfold paintCell
  cases hl : g.lookup p with
  | none =>
    refine wellFormed_flip g p ⟨true, 0, false⟩ true hw ?_ rfl ?_
    · simpa using ha
    · rw [aliveNeighbors_eq_zero_of_absent hw.2 hl]; rfl
  | some c =>
    refine wellFormed_flip g p { c with alive := true } true hw ?_ rfl ?_
    · simpa using ha
    · exact countsOK_def.1 hw.1 p c hl

/-! ## The lookups of `checkNeighbor` on a well-formed grid -/

theorem eq_not_of_bne {a b : Bool} (h : (b != a) = true) : a = !b := by
  cases a <;> cases b <;> simp at h ⊢

theorem checkNeighborVisits_spec (p : Point) (s : Bool) :
    ∀ (ds : List Point) (g : Grid), (ds.map p.add).Nodup →
      ∀ v ∈ checkNeighborVisits p s ds g,
        v.state = s ∧ v.pos ∈ ds.map p.add ∧ v.found = g.lookup v.pos := by
  intro ds
  induction ds with
  | nil => intro g _ v hv; simp [checkNeighborVisits] at hv
  | cons d ds ih =>
    intro g hn v hv
    rw [List.map_cons, List.nodup_cons] at hn
    simp only [checkNeighborVisits, List.mem_cons] at hv
    rcases hv with hv | hv
    · subst hv
      exact ⟨rfl, by simp, rfl⟩
    · obtain ⟨h1, h2, h3⟩ := ih _ hn.2 v hv
      refine ⟨h1, ?_, ?_⟩
      · rw [List.map_cons]; exact List.mem_cons_of_mem _ h2
      · rw [h3, lookup_bump]
        have : v.pos ≠ p.add d := fun h => hn.1 (h ▸ h2)
        simp [this]

theorem flipVisits_ok (g : Grid) (p : Point) (c : Cell) (s : Bool) (hw : wellFormed g)
    (ha : aliveAt g p = !s) :
    ∀ v ∈ checkNeighborVisits p s direction (g.insert p c), visitOK v := by
  intro v hv
  obtain ⟨hs, hpos, hf⟩ := checkNeighborVisits_spec p s direction _ (nbrs_nodup p) v hv
  have hm : v.pos ∈ nbrs p := hpos
  have hne : v.pos ≠ p := fun h => not_mem_nbrs_self p (h ▸ hm)
  rw [lookup_insert_eq, if_neg hne] at hf
  unfold visitOK
  rw [hs, hf]
  cases s with
  | false =>
    have hp : aliveAt g p = true := by simpa using ha
    have h1 := frontierOK_def.1 hw.2 p hp v.pos hm
    have h2 := aliveNeighbors_pos hp hm
    have h3 := aliveNeighbors_le g v.pos
    cases hg : g.lookup v.pos with
    | none => rw [hg] at h1; exact Bool.noConfusion h1
    | some a =>
      have h4 := countsOK_def.1 hw.1 v.pos a hg
      refine ⟨fun _ => ⟨a, rfl, by omega⟩, ?_⟩
      have h5 : a.neighbors.val = ((aliveNeighbors g v.pos - 1 : Nat) : Int) + 1 := by omega
      have := sub_one_val a.neighbors _ h5 (by omega)
      simp only [bumpCell]
      rw [this]
      exact Int.natCast_nonneg _
  | true =>
    refine ⟨fun h => Bool.noConfusion h, ?_⟩
    cases hg : g.lookup v.pos with
    | none => simp only [bumpCell]; decide
    | some a =>
      have h4 := countsOK_def.1 hw.1 v.pos a hg
      have := add_one_val a.neighbors _ h4 (aliveNeighbors_le g v.pos)
      simp only [bumpCell]
      rw [this]
      omega

theorem commitVisits_ok (order : List Point) :
    ∀ g : Grid, wellFormed g → ∀ v ∈ commitVisits order g, visitOK v := by
  induction order with
  | nil => intro g _ v hv; simp [commitVisits] at hv
  | cons p ps ih =>
    intro g hw v hv
    cases hl : g.lookup p with
    | none =>
      simp only [commitVisits, hl] at hv
      exact ih g hw v hv
    | some c =>
      simp only [commitVisits, hl] at hv
      have hstep := (commit_step g p c hl hw).1
      by_cases h : (c.nextState != c.alive) = true
      · rw [if_pos h, List.mem_append] at hv
        rcases hv with hv | hv
        · have ha : aliveAt g p = !c.nextState := by
            unfold aliveAt; rw [hl]
            exact eq_not_of_bne h
          exact flipVisits_ok g p _ _ hw ha v hv
        · exact ih _ hstep v hv
      · rw [if_neg h] at hv
        exact ih _ hstep v hv

theorem wellFormed_compute (g : Grid) (order : List Point) (hw : wellFormed g)
    (ho : rangeOrder order g) : wellFormed (rangeLoop computeBody order g) := by
  refine wellFormed_congr ?_ hw
  intro q
  rw [lookup_compute_of_order ho]
  cases g.lookup q <;> rfl

/-! ## Concrete grids -/

theorem eq_empty_of_lookup {g : Grid} (h : ∀ q, g.lookup q = none) : g = ∅ := by
  apply AList.ext
  rw [AList.empty_entries]
  cases he : g.entries with
  | nil => rfl
  | cons e es =>
    cases e with
    | mk p c =>
      have hm : Sigma.mk p c ∈ g.entries := by rw [he]; exact List.mem_cons_self _ _
      have := AList.mem_lookup_iff.2 hm
      rw [h p] at this
      simp at this

theorem aliveAt_iff_of_keys (g : Grid) (l : List Point)
    (h1 : ∀ q ∈ g.keys, aliveAt g q = true → q ∈ l) (h2 : ∀ q ∈ l, aliveAt g q = true)
    (q : Point) : aliveAt g q = true ↔ q ∈ l := by
  constructor
  · intro h
    apply h1 q _ h
    obtain ⟨c, hl, _⟩ := aliveAt_eq_true.1 h
    apply AList.mem_keys.1
    apply AList.lookup_isSome.1
    rw [hl]; rfl
  · exact h2 q

theorem view_eq_of_keys (g h : Grid)
    (hk : ∀ q ∈ g.keys ++ h.keys, (g.lookup q).map view = (h.lookup q).map view) (q : Point) :
    (g.lookup q).map view = (h.lookup q).map view := by
  by_cases hq : q ∈ g.keys ++ h.keys
  · exact hk q hq
  · rw [List.mem_append, not_or] at hq
    have h1 : g.lookup q = none := AList.lookup_eq_none.2 (fun hm => hq.1 (AList.mem_keys.1 hm))
    have h2 : h.lookup q = none := AList.lookup_eq_none.2 (fun hm => hq.2 (AList.mem_keys.1 hm))
    rw [h1, h2]

theorem aliveAt_of_lookup_eq {g h : Grid} {q : Point} (he : g.lookup q = h.lookup q) :
    aliveAt g q = aliveAt h q := by
  unfold aliveAt; rw [he]

/-! ## The claims -/

/-- C1: on a well-formed grid one `tickStep` computes one generation of Conway's rule,
whatever the visiting orders of its loops: a coordinate has an alive record afterwards
iff it was alive with exactly 2 or 3 alive Moore neighbours, or not alive (dead record
or absent) with exactly 3. -/
theorem tickStep_conway (g : Grid) (o : TickOrders) (hw : wellFormed g) (ho : o.valid g)
    (p : Point) :
    aliveAt (tickStep o g) p = true ↔
      (aliveAt g p = true ∧ (aliveNeighbors g p = 2 ∨ aliveNeighbors g p = 3)) ∨
      (aliveAt g p = false ∧ aliveNeighbors g p = 3) := by
  rw [aliveAt_tickStep g o hw ho]
  unfold nextAlive aliveAt
  cases hl : g.lookup p with
  | none =>
    have := aliveNeighbors_eq_zero_of_absent hw.2 hl
    simp [this]
  | some c =>
    have hn := countsOK_def.1 hw.1 p c hl
    cases ha : c.alive with
    | true =>
      simp only [rule, ha, if_true, Bool.and_eq_true, decide_eq_true_eq, true_and,
        Bool.true_eq_false, false_and, or_false]
      omega
    | false =>
      simp only [rule, ha, Bool.false_eq_true, if_false, decide_eq_true_eq, false_and,
        false_or, true_and]
      omega

set_option maxRecDepth 100000 in
/-- C1, witness: the L of alive cells (0,0), (1,0), (0,1) gives an alive cell at (1,1)
after one `tickStep`. -/
theorem tickStep_conway_witness :
    wellFormed ell ∧ (keyOrders ell).valid ell ∧
      aliveAt (tickStep (keyOrders ell) ell) (pt 1 1) = true :=
  ⟨by decide, by decide,
    (tickStep_conway ell (keyOrders ell) (by decide) (by decide) (pt 1 1)).2
      (Or.inr ⟨by decide, by decide⟩)⟩

/-- C3: after a prune pass no dead orphan record remains. For every grid (no
precondition), the grid after `tickStep` has no record with `alive == false` and
`neighbors == 0`; and when the record at `p` is alive, neither has the grid after the
erase action at `p`. -/
theorem no_dead_orphan_after_prune (g : Grid) :
    (∀ o : TickOrders, o.valid g → ∀ q c, (tickStep o g).lookup q = some c →
      ¬ (c.alive = false ∧ c.neighbors.val = 0)) ∧
    (∀ (order : List Point) (p : Point), aliveAt g p = true →
      rangeOrder order (unsetCell p g) →
      ∀ q c, (eraseCell order p g).lookup q = some c →
        ¬ (c.alive = false ∧ c.neighbors.val = 0)) := by
  constructor
  · intro o ho q c hc
    unfold tickStep at hc
    rw [lookup_prune_of_order ho.2.2] at hc
    exact (pruned_eq_some hc).2
  · intro order p ha ho q c hc
    rw [eraseCell_eq order p g ha, lookup_prune_of_order ho] at hc
    exact (pruned_eq_some hc).2

set_option maxRecDepth 100000 in
/-- C3, witness: the blinker after one `tickStep`, and after erasing its middle cell. -/
theorem no_dead_orphan_after_prune_witness :
    (∀ q c, (tickStep (keyOrders blinker) blinker).lookup q = some c →
      ¬ (c.alive = false ∧ c.neighbors.val = 0)) ∧
    (∀ q c, (eraseCell box (pt 1 0) blinker).lookup q = some c →
      ¬ (c.alive = false ∧ c.neighbors.val = 0)) :=
  ⟨(no_dead_orphan_after_prune blinker).1 (keyOrders blinker) (by decide),
   (no_dead_orphan_after_prune blinker).2 box (pt 1 0) (by decide) (by decide)⟩

/-- C9: each single-flip operation keeps a well-formed grid well-formed: `tickStep`,
the erase action at any coordinate, and the paint action at a coordinate whose cell is
not already alive. -/
theorem single_flip_keeps_wellFormed (g : Grid) (hw : wellFormed g) :
    (∀ o : TickOrders, o.valid g → wellFormed (tickStep o g)) ∧
    (∀ (order : List Point) (p : Point), rangeOrder order (unsetCell p g) →
      wellFormed (eraseCell order p g)) ∧
    (∀ p : Point, aliveAt g p = false → wellFormed (paintCell p g)) :=
  ⟨fun o ho => wellFormed_tickStep g o hw ho,
   fun order p ho => wellFormed_eraseCell g hw order p ho,
   fun p ha => wellFormed_paintCell g hw p ha⟩

set_option maxRecDepth 100000 in
/-- C9, witness: the three operations on the L. -/
theorem single_flip_keeps_wellFormed_witness :
    wellFormed (tickStep (keyOrders ell) ell) ∧
    wellFormed (eraseCell box (pt 0 0) ell) ∧
    wellFormed (paintCell (pt 1 1) ell) :=
  ⟨(single_flip_keeps_wellFormed ell (by decide)).1 (keyOrders ell) (by decide),
   (single_flip_keeps_wellFormed ell (by decide)).2.1 box (pt 0 0) (by decide),
   (single_flip_keeps_wellFormed ell (by decide)).2.2 (pt 1 1) (by decide)⟩

/-- C10: the result of `tickStep` on a well-formed grid does not depend on the visiting
orders: any two runs, each with orders Go allows for its three loops (records inserted
during the second loop visited by it or not), leave the same record at every
coordinate. -/
theorem tickStep_order_independent (g : Grid) (o u : TickOrders) (hw : wellFormed g)
    (ho : o.valid g) (hu : u.valid g) (q : Point) :
    (tickStep o g).lookup q = (tickStep u g).lookup q := by
  rw [lookup_tickStep g o hw ho, lookup_tickStep g u hw hu]

set_option maxRecDepth 100000 in
/-- C10, witness: the blinker, visited in key order and visited row by row over a square
that holds the records inserted during the second loop. -/
theorem tickStep_order_independent_witness :
    (tickStep (keyOrders blinker) blinker).lookup (pt 1 1) =
      (tickStep (sameOrder box) blinker).lookup (pt 1 1) :=
  tickStep_order_independent blinker (keyOrders blinker) (sameOrder box) (by decide)
    (by decide) (by decide) (pt 1 1)

/-- C5: a decrement never creates a record. On a well-formed grid, every iteration of
every call `checkNeighbor(p, false)` made by the second loop of `tickStep` (whatever
the visiting orders) and by the erase action finds a record at the neighbour position
(the `else` branch of line 121 does not run), that record has a count of at least 1,
and the count it stores is not negative. -/
theorem decrement_never_creates (g : Grid) (hw : wellFormed g) :
    (∀ o : TickOrders, o.valid g → ∀ v ∈ tickVisits o g, v.state = false →
      ∃ c, v.found = some c ∧ 1 ≤ c.neighbors.val ∧
        0 ≤ (c.neighbors.add (changeOf false)).val) ∧
    (∀ p : Point, ∀ v ∈ eraseVisits p g, v.state = false →
      ∃ c, v.found = some c ∧ 1 ≤ c.neighbors.val ∧
        0 ≤ (c.neighbors.add (changeOf false)).val) := by
  have key : ∀ v : Visit, visitOK v → v.state = false →
      ∃ c, v.found = some c ∧ 1 ≤ c.neighbors.val ∧
        0 ≤ (c.neighbors.add (changeOf false)).val := by
    intro v hv hs
    obtain ⟨c, hc, h1⟩ := hv.1 hs
    have h2 := hv.2
    rw [hs, hc] at h2
    exact ⟨c, hc, h1, h2⟩
  constructor
  · intro o ho v hv
    exact key v (commitVisits_ok o.commit _ (wellFormed_compute g o.compute hw ho.1) v hv)
  · intro p v hv
    apply key v
    unfold eraseVisits at hv
    cases hl : g.lookup p with
    | none => rw [hl] at hv; simp at hv
    | some c =>
      rw [hl] at hv
      by_cases ha : c.alive = true
      · simp only [ha, if_true] at hv
        refine flipVisits_ok g p _ false hw ?_ v hv
        unfold aliveAt; rw [hl]; simpa using ha
      · simp only [ha] at hv
        simp at hv

set_option maxRecDepth 100000 in
/-- C5, witness: the blinker; its `tickStep` and the erase of its middle cell both make
decrementing calls. -/
theorem decrement_never_creates_witness :
    (∃ v ∈ tickVisits (keyOrders blinker) blinker, v.state = false) ∧
    (∀ v ∈ tickVisits (keyOrders blinker) blinker, v.state = false →
      ∃ c, v.found = some c ∧ 1 ≤ c.neighbors.val ∧
        0 ≤ (c.neighbors.add (changeOf false)).val) ∧
    (∃ v ∈ eraseVisits (pt 1 0) blinker, v.state = false) ∧
    (∀ v ∈ eraseVisits (pt 1 0) blinker, v.state = false →
      ∃ c, v.found = some c ∧ 1 ≤ c.neighbors.val ∧
        0 ≤ (c.neighbors.add (changeOf false)).val) :=
  ⟨by decide,
   (decrement_never_creates blinker (by decide)).1 (keyOrders blinker) (by decide),
   by decide,
   (decrement_never_creates blinker (by decide)).2 (pt 1 0)⟩

/-- C8: erase undoes a lone paint. For every coordinate `p`, painting `p` on the empty
grid and then erasing at `p` gives the empty grid, whatever the visiting order of the
prune loop. -/
theorem erase_undoes_lone_paint (p : Point) (order : List Point)
    (ho : rangeOrder order (unsetCell p (paintCell p ∅))) :
    eraseCell order p (paintCell p ∅) = ∅ := by
  have hP : ∀ q, (paintCell p ∅).lookup q =
      if q = p then some ⟨true, 0, false⟩
      else if q ∈ nbrs p then some ⟨false, 1, false⟩ else none := by
    intro q
    show (checkNeighbor p true ((∅ : Grid).insert p ⟨true, 0, false⟩)).lookup q = _
    rw [lookup_flip, AList.lookup_empty]
    rfl
  have ha : aliveAt (paintCell p ∅) p = true := by
    unfold aliveAt; rw [hP]; simp
  apply eq_empty_of_lookup
  intro q
  rw [eraseCell_eq order p _ ha, lookup_prune_of_order ho]
  have hU : unsetCell p (paintCell p ∅) =
      checkNeighbor p false ((paintCell p ∅).insert p ⟨false, 0, false⟩) := by
    unfold unsetCell
    rw [hP p]
    simp
  rw [hU, lookup_flip, hP q]
  by_cases hq : q = p
  · rw [if_pos hq]; rfl
  · rw [if_neg hq]
    by_cases hm : q ∈ nbrs p
    · rw [if_pos hm, if_neg hq, if_pos hm]; rfl
    · rw [if_neg hm, if_neg hq, if_neg hm]; rfl

set_option maxRecDepth 100000 in
/-- C8, witness: paint then erase at (5,-7), the prune loop visiting the 3x3 square
around it row by row. -/
theorem erase_undoes_lone_paint_witness :
    eraseCell ((pt 5 (-7)) :: nbrs (pt 5 (-7))) (pt 5 (-7)) (paintCell (pt 5 (-7)) ∅) = ∅ :=
  erase_undoes_lone_paint (pt 5 (-7)) ((pt 5 (-7)) :: nbrs (pt 5 (-7))) (by decide)

set_option maxRecDepth 100000 in
/-- C6: blinker oscillation. From the grid painted with (0,0), (1,0), (2,0), the alive
coordinates after one `tickStep` are exactly (1,-1), (1,0), (1,1), and after a second
one exactly (0,0), (1,0), (2,0) again, whatever the visiting orders of both calls. -/
theorem blinker_oscillates (o u : TickOrders) (ho : o.valid blinker)
    (hu : u.valid (tickStep o blinker)) :
    (∀ q, aliveAt (tickStep o blinker) q = true ↔ q ∈ [pt 1 (-1), pt 1 0, pt 1 1]) ∧
    (∀ q, aliveAt (tickStep u (tickStep o blinker)) q = true ↔
      q ∈ [pt 0 0, pt 1 0, pt 2 0]) := by
  have hw : wellFormed blinker := by decide
  have hk : (keyOrders blinker).valid blinker := by decide
  have h1 : ∀ q, (tickStep o blinker).lookup q = blinker1.lookup q := fun q =>
    tickStep_congr o (keyOrders blinker) (fun _ => rfl) hw hw ho hk q
  have hw1 : wellFormed (tickStep o blinker) := wellFormed_tickStep blinker o hw ho
  have hw1k : wellFormed blinker1 := wellFormed_tickStep blinker _ hw hk
  have hk1 : (keyOrders blinker1).valid blinker1 := by decide
  have h2 : ∀ q, (tickStep u (tickStep o blinker)).lookup q =
      (tickStep (keyOrders blinker1) blinker1).lookup q := fun q =>
    tickStep_congr u (keyOrders blinker1) (fun r => by rw [h1 r]) hw1 hw1k hu hk1 q
  constructor
  · intro q
    rw [aliveAt_of_lookup_eq (h1 q)]
    exact aliveAt_iff_of_keys blinker1 _ (by decide) (by decide) q
  · intro q
    rw [aliveAt_of_lookup_eq (h2 q)]
    exact aliveAt_iff_of_keys (tickStep (keyOrders blinker1) blinker1) _ (by decide)
      (by decide) q

set_option maxRecDepth 100000 in
/-- C6, witness: the first call visits in key order, the second row by row over a
square. -/
theorem blinker_oscillates_witness :
    (∀ q, aliveAt (tickStep (keyOrders blinker) blinker) q = true ↔
      q ∈ [pt 1 (-1), pt 1 0, pt 1 1]) ∧
    (∀ q, aliveAt (tickStep (sameOrder box) (tickStep (keyOrders blinker) blinker)) q = true ↔
      q ∈ [pt 0 0, pt 1 0, pt 2 0]) :=
  blinker_oscillates (keyOrders blinker) (sameOrder box) (by decide) (by decide)

theorem block_still_aux (os : List TickOrders) :
    ∀ g : Grid, wellFormed g →
      (∀ q, (g.lookup q).map view = (block.lookup q).map view) → validRun os g →
      ∀ q, ((tickSteps os g).lookup q).map view = (block.lookup q).map view := by
  induction os with
  | nil => intro g _ hv _ q; exact hv q
  | cons o os ih =>
    intro g hw hv hr q
    have hwb : wellFormed block := wellFormed_congr hv hw
    have hkb : (keyOrders block).valid block := by decide
    have hb : ∀ r, (block1.lookup r).map view = (block.lookup r).map view :=
      view_eq_of_keys block1 block (by decide)
    apply ih (tickStep o g) (wellFormed_tickStep g o hw hr.1) _ hr.2
    intro r
    rw [tickStep_congr o (keyOrders block) hv hw hwb hr.1 hkb r]
    exact hb r

set_option maxRecDepth 100000 in
/-- C7: block still life. From the grid painted with (0,0), (1,0), (0,1), (1,1), after
any number of `tickStep` calls (one entry of `os` per call, whatever the visiting
orders) the grid has the same record coordinates, with the same alive flag and the same
count at each, as the starting grid. -/
theorem block_still (os : List TickOrders) (h : validRun os block) (q : Point) :
    ((tickSteps os block).lookup q).map view = (block.lookup q).map view :=
  block_still_aux os block (by decide) (fun _ => rfl) h q

set_option maxRecDepth 100000 in
/-- C7, witness: two calls, the first in key order, the second row by row over a
square, read at (2,2). -/
theorem block_still_witness :
    ((tickSteps [keyOrders block, sameOrder box] block).lookup (pt 2 2)).map view =
      (block.lookup (pt 2 2)).map view :=
  block_still [keyOrders block, sameOrder box] ⟨by decide, by decide, trivial⟩ (pt 2 2)

set_option maxRecDepth 100000 in
/-- C4, the code at two presses on (0,0): the second paint finds the cell alive, runs
`checkNeighbor` again, and the neighbour (1,1) ends with count 2 where one paint
leaves 1. -/
theorem paint_twice_differs :
    (inputCells (press (pt 0 0)) [] (inputCells (press (pt 0 0)) [] start)).grid.lookup (pt 1 1) =
      some ⟨false, 2, false⟩ ∧
    (inputCells (press (pt 0 0)) [] start).grid.lookup (pt 1 1) = some ⟨false, 1, false⟩ := by
  decide

set_option maxRecDepth 100000 in
/-- C2, the code at two presses on (0,0) from the empty grid: the grid reached has a
record whose `neighbors` is not its number of alive neighbours ((1,1) holds 2, one
neighbour is alive). -/
theorem counts_wrong_after_two_presses :
    ¬ countsOK (inputCells (press (pt 0 0)) [] (inputCells (press (pt 0 0)) [] start)).grid ∧
    aliveNeighbors (inputCells (press (pt 0 0)) [] (inputCells (press (pt 0 0)) [] start)).grid
      (pt 1 1) = 1 := by
  decide

end GoOfLife
